import Mathlib

/-!
Verification development for `src/bundle-uri.c`: a shallow embedding of the
bundle-URI pipeline (manifest key parser, remote-helper transport,
unbundle/ref translation, and the fetch orchestrator), together with
theorems settling the specification's claims about it.

Strings are embedded as lists of characters (`Str`), machine `int` return
codes as `Int`, and the external collaborators (ref store, config store,
file system, helper process) as explicit state or oracle records.
-/

namespace BundleUri

/-- C strings, embedded as lists of characters. -/
abbrev Str := List Char

/-- Embedding of git's `skip_prefix(str, prefix, &out)`: if `s` starts with
`p`, return the remainder after the prefix, else `none`. -/
def skipPfx : Str → Str → Option Str
  | s, [] => some s
  | [], _ :: _ => none
  | c :: s, p :: ps => if c = p then skipPfx s ps else none

/-- Embedding of `strchr(s, ch)` as a split at the first occurrence of `ch`:
`some (before, after)` when `ch` occurs, `none` otherwise. -/
def strchrSplit (ch : Char) : Str → Option (Str × Str)
  | [] => none
  | c :: s =>
    if c = ch then some ([], s)
    else
      match strchrSplit ch s with
      | some (a, b) => some (c :: a, b)
      | none => none

/-- The `isspace` characters skipped by C `atoi`. -/
def isSpaceC (c : Char) : Bool :=
  c = ' ' || c = '\t' || c = '\n' || c = '\x0b' || c = '\x0c' || c = '\r'

/-- Drop leading `isspace` characters (the first phase of C `atoi`). -/
def dropSpaces : Str → Str
  | [] => []
  | c :: s => if isSpaceC c then dropSpaces s else c :: s

/-- Accumulate a decimal value over leading digits, stopping at the first
non-digit (the digit phase of C `atoi`). -/
def digitsVal : Str → Int → Int
  | [], acc => acc
  | c :: s, acc =>
    if c.isDigit then digitsVal s (acc * 10 + (c.toNat - '0'.toNat : Nat))
    else acc

/-- Embedding of C `atoi`: optional whitespace, optional sign, leading
digits; `0` when no digits are present. -/
def atoi (s : Str) : Int :=
  match dropSpaces s with
  | '-' :: rest => - digitsVal rest 0
  | '+' :: rest => digitsVal rest 0
  | rest => digitsVal rest 0

/-! ### Bundle descriptor store (`struct bundle_list`) -/

/-- `BUNDLE_MODE_ALL` / `BUNDLE_MODE_ANY`. -/
inductive BundleMode where
  | all
  | any
deriving DecidableEq, Repr

/-- Embedding of `struct remote_bundle_info`: the hashmap entry keyed by
`id`, with `uri` a nullable C string (`none` = NULL, as after `CALLOC`). -/
structure RemoteBundleInfo where
  id : Str
  uri : Option Str
deriving DecidableEq, Repr

/-- Embedding of `struct bundle_list`; the hashmap of bundles is an
association list keyed by `id` (insertion order, which the hashmap leaves
unspecified, is irrelevant to every claim). -/
structure BundleList where
  version : Int
  mode : BundleMode
  bundles : List RemoteBundleInfo
deriving DecidableEq, Repr

/-- `init_bundle_list`: implied defaults `mode = ALL`, `version = 1`,
empty map. -/
def init_bundle_list : BundleList :=
  { version := 1, mode := BundleMode.all, bundles := [] }

/-- Does the store hold a descriptor with this id
(`hashmap_get_entry` success)? -/
def containsId (bs : List RemoteBundleInfo) (i : Str) : Bool :=
  bs.any fun b => b.id == i

/-- The lookup-or-create access pattern of `bundle_list_update`: return the
existing entry's store unchanged, or add a freshly calloc'd entry
(`uri = NULL`) under `i`. -/
def getOrCreate (bs : List RemoteBundleInfo) (i : Str) : List RemoteBundleInfo :=
  if containsId bs i then bs else bs ++ [{ id := i, uri := none }]

/-- `free(bundle->uri); bundle->uri = xstrdup(value)`: overwrite the uri of
the entry with id `i`. -/
def setUri (bs : List RemoteBundleInfo) (i v : Str) : List RemoteBundleInfo :=
  bs.map fun b => if b.id == i then { b with uri := some v } else b

/-- The uri field of the descriptor with id `i`, if one exists. -/
def lookupUri (bs : List RemoteBundleInfo) (i : Str) : Option (Option Str) :=
  (bs.find? fun b => b.id == i).map fun b => b.uri

/-- Embedding of `bundle_list_update`: fold one config key-value pair into
the bundle list. Returns the updated list and the C return code
(`0` understood, `1` unrecognized/malformed). -/
def bundle_list_update (key value : Str) (list : BundleList) : BundleList × Int :=
  match skipPfx key "bundle.".toList with
  | none => (list, 1)
  | some pkey =>
    if pkey = "list.version".toList then
      let version := atoi value
      if version ≠ 1 then (list, 1)
      else ({ list with version := version }, 0)
    else if pkey = "list.mode".toList then
      if value = "all".toList then ({ list with mode := BundleMode.all }, 0)
      else if value = "any".toList then ({ list with mode := BundleMode.any }, 0)
      else (list, 1)
    else
      match strchrSplit '.' pkey with
      | none => (list, 1)
      | some (i, field) =>
        if i = "list".toList then (list, 1)
        else
          let bs := getOrCreate list.bundles i
          if field = "uri".toList then
            ({ list with bundles := setUri bs i value }, 0)
          else
            ({ list with bundles := bs }, 0)

/-- Fold a whole sequence of key-value pairs into a list (the parser is
invoked once per observed key). -/
def applyAll : List (Str × Str) → BundleList → BundleList
  | [], l => l
  | (k, v) :: rest, l => applyAll rest (bundle_list_update k v l).1

/-! ### Remote-helper transport (`download_https_uri_to_file`) -/

/-- Oracle for one run of the spawned `git-remote-https` helper: whether
`start_command` and the two `fdopen` calls succeed, the lines the helper
writes to its output stream before closing it, and whether
`finish_command` reports a zero exit status. -/
structure HelperBehavior where
  start_ok : Bool
  fdopen_in_ok : Bool
  fdopen_out_ok : Bool
  capLines : List Str
  exit_ok : Bool

/-- The helper's capability advertisement: its output lines up to (and
excluding) the first blank line, as consumed by the `strbuf_getline` loop
(which also stops at end-of-stream). -/
def capsUntilBlank : List Str → List Str
  | [] => []
  | l :: rest => if l = [] then [] else l :: capsUntilBlank rest

/-- The `found_get` flag computed by the read loop: some advertised
capability line is exactly `"get"`. -/
def foundGet (lines : List Str) : Bool :=
  (capsUntilBlank lines).any fun l => l == "get".toList

/-- The first request written to the helper. -/
def capabilitiesCmd : Str := "capabilities\n".toList

/-- The second request written to the helper:
`"get <uri> <file>\n\n"`. -/
def getCommand (uri file : Str) : Str :=
  "get ".toList ++ uri ++ " ".toList ++ file ++ "\n\n".toList

/-- The return value of `error(...)` in git: `-1`. The spec's
`InsufficientCapabilities` is the value `error(_("insufficient
capabilities"))` produces on this path. -/
def InsufficientCapabilities : Int := -1

/-- Embedding of `download_https_uri_to_file`: returns the list of
requests written to the helper's input stream, in order, and the C return
code. Mirrors the source control flow: early `return 1` when
`start_command` fails; `goto cleanup` with `result = 1` when an `fdopen`
fails (before anything is written); otherwise write `capabilities`, scan
the response for `get`, optionally write the `get` command; cleanup
returns `1` whenever `finish_command` reports failure, else `result`. -/
def download_https_uri_to_file (uri file : Str) (h : HelperBehavior) :
    List Str × Int :=
  if h.start_ok = false then ([], 1)
  else if h.fdopen_in_ok = false then ([], 1)
  else if h.fdopen_out_ok = false then ([], 1)
  else if foundGet h.capLines then
    ([capabilitiesCmd, getCommand uri file], if h.exit_ok then 0 else 1)
  else
    ([capabilitiesCmd], if h.exit_ok then InsufficientCapabilities else 1)

/-! ### Unbundle and ref translation (`unbundle_from_file`) -/

/-- Object ids, abstracted. -/
abbrev ObjId := Nat

/-- One entry of `header.references`: a refname with its object id
(`refname->util`). -/
structure BundleHeaderEntry where
  refname : Str
  oid : ObjId
deriving DecidableEq, Repr

/-- The local ref store, an association list from refname to object id
(the ref store itself is an external collaborator). -/
abbrev RefStore := List (Str × ObjId)

/-- Ref store write: set `n` to `v` (create or overwrite). -/
def setRef (s : RefStore) (n : Str) (v : ObjId) : RefStore :=
  (n, v) :: s.filter fun p => !(p.1 == n)

/-- Ref store read (`read_ref`): the current value of `n`, if any. -/
def lookupRef (s : RefStore) (n : Str) : Option ObjId :=
  (s.find? fun p => p.1 == n).map fun p => p.2

/-- The `enum action_on_err` argument of `update_ref` (refs.h). -/
inductive ActionOnErr where
  | msgOnErr
  | dieOnErr
  | quietOnErr
deriving DecidableEq

/-- Oracle for one run of `unbundle_from_file`: whether
`read_bundle_header` succeeds, the ref/oid pairs it decodes, the return
code of the external `unbundle` step, and which destination refnames the
ref store rejects when a conditional write is attempted. -/
structure RefEnv where
  readHeaderOk : Bool
  header : List BundleHeaderEntry
  unbundleResult : Int
  updateFails : Str → Bool

/-- Modelled from the spec: the ref store's conditional compare-and-set
write is an external collaborator (§1: "the ref store's read/compare-and-set
primitives" are out of scope; `update_ref` lives in refs.c, not under
src/). The caller-selected `action_on_err` decides what a store-level
failure does: `dieOnErr` terminates the process, while `msgOnErr` /
`quietOnErr` report a recoverable error code (`error(...)` = `-1`) and
leave the ref unchanged. `Except.error ()` models process termination.
src/bundle-uri.c line 271 passes `UPDATE_REFS_MSG_ON_ERR`. -/
def update_ref (env : RefEnv) (n : Str) (v : ObjId) (onerr : ActionOnErr)
    (s : RefStore) : Except Unit (RefStore × Int) :=
  if env.updateFails n then
    match onerr with
    | ActionOnErr.dieOnErr => Except.error ()
    | _ => Except.ok (s, -1)
  else Except.ok (setRef s n v, 0)

/-- The ref-translation loop of `unbundle_from_file`: for each header
entry whose refname starts with `refs/heads/`, build
`refs/bundles/<branch>` and issue a conditional `update_ref` (with
`UPDATE_REFS_MSG_ON_ERR`, its return value ignored, as in the source);
other entries are skipped. Returns the final store and the ordered list
of attempted updates `(destination, oid)`. -/
def refTranslate (env : RefEnv) :
    List BundleHeaderEntry → RefStore → Except Unit (RefStore × List (Str × ObjId))
  | [], s => Except.ok (s, [])
  | e :: rest, s =>
    match skipPfx e.refname "refs/heads/".toList with
    | none => refTranslate env rest s
    | some branch =>
      let dest := "refs/bundles/".toList ++ branch
      match update_ref env dest e.oid ActionOnErr.msgOnErr s with
      | Except.error u => Except.error u
      | Except.ok (s1, _ec) =>
        match refTranslate env rest s1 with
        | Except.error u => Except.error u
        | Except.ok (s2, us) => Except.ok (s2, (dest, e.oid) :: us)

/-- Embedding of `unbundle_from_file`: fail with `1` when
`read_bundle_header` fails; otherwise record the external `unbundle`
result and — without checking it, as in the source — run the
ref-translation loop; return the recorded result. `Except.error ()` would
mean the process died inside translation. -/
def unbundle_from_file (env : RefEnv) (s : RefStore) :
    Except Unit (Int × RefStore × List (Str × ObjId)) :=
  if env.readHeaderOk = false then Except.ok (1, s, [])
  else
    match refTranslate env env.header s with
    | Except.error u => Except.error u
    | Except.ok (s1, us) => Except.ok (env.unbundleResult, s1, us)

/-- `refs/bundles/<branch>` for a refname of the form
`refs/heads/<branch>`; `none` for any other refname. -/
def headsDest (refname : Str) : Option Str :=
  (skipPfx refname "refs/heads/".toList).map fun branch =>
    "refs/bundles/".toList ++ branch

/-- The conditional updates the translation loop attempts, in header
declaration order. -/
def attemptsOf (entries : List BundleHeaderEntry) : List (Str × ObjId) :=
  entries.filterMap fun e => (headsDest e.refname).map fun d => (d, e.oid)

/-- The ref store produced by the translation loop, extracted as a pure
fold (used only to state and prove lemmas about `refTranslate`). -/
def transStore (env : RefEnv) : List BundleHeaderEntry → RefStore → RefStore
  | [], s => s
  | e :: rest, s =>
    match skipPfx e.refname "refs/heads/".toList with
    | none => transStore env rest s
    | some branch =>
      let dest := "refs/bundles/".toList ++ branch
      transStore env rest (if env.updateFails dest then s else setRef s dest e.oid)

/-! ### Fetch orchestrator (`fetch_bundle_uri`) -/

/-- The persistent configuration store, a list of `(key, value)` entries
in file order. -/
abbrev ConfigStore := List (Str × Str)

/-- Modelled from the spec: `git_config_set_multivar_gently` with
`CONFIG_FLAGS_FIXED_VALUE | CONFIG_FLAGS_MULTI_REPLACE` (config.c, not
under src/) is the "fixed value, replace all matching" upsert of §4.5/§9:
remove every entry under `key` whose value is exactly `pattern` and write
a single entry `(key, value)`. -/
def git_config_set_multivar_gently (cfg : ConfigStore)
    (key value pattern : Str) : ConfigStore :=
  (cfg.filter fun kv => !(kv.1 == key && kv.2 == pattern)) ++ [(key, value)]

/-- The steps of the orchestrator pipeline that run after temp-file
allocation, used to record which ones a given run reached. -/
inductive Step where
  | transport
  | validate
  | ingest
  | configUpsert
deriving DecidableEq, Repr

/-- Observable repository state threaded through `fetch_bundle_uri`:
whether a file currently exists at the allocated temp path, the ref
store, and the config store. -/
structure RepoState where
  tempExists : Bool
  refs : RefStore
  config : ConfigStore
deriving DecidableEq, Repr

/-- Oracle for one run of `fetch_bundle_uri`: whether `odb_mkstemp`
succeeds inside `find_temp_filename`, the return code of
`copy_uri_to_file`, whether the transport left a file at the temp path,
the `is_bundle` verdict, and the unbundle/ref oracle. -/
structure FetchEnv where
  mkstempOk : Bool
  copyResult : Int
  copyCreatesFile : Bool
  isBundle : Bool
  refEnv : RefEnv

/-- Outcome of `fetch_bundle_uri`: either the process died (`die` or a
fatal ref update), or the function returned a code; both carry the final
state and the pipeline steps that ran. -/
inductive FetchOutcome where
  | died (st : RepoState) (stepsRun : List Step)
  | returned (code : Int) (st : RepoState) (stepsRun : List Step)
deriving DecidableEq, Repr

/-- Embedding of `find_temp_filename`: `die` (process termination, the
`error` case) when `odb_mkstemp` fails; otherwise the placeholder file is
created, closed and immediately unlinked, so no file exists at the path. -/
def find_temp_filename (mkstempOk : Bool) : Except Unit Unit :=
  if mkstempOk = false then Except.error () else Except.ok ()

/-- The config key and value upserted on success. -/
def logExclKey : Str := "log.excludedecoration".toList

/-- The upserted config value (note: `refs/bundle/`, as in the source). -/
def refsBundleVal : Str := "refs/bundle/".toList

/-- Embedding of `fetch_bundle_uri`: allocate the temp name (dying if
`odb_mkstemp` fails, before any other step), run the transport, validate,
ingest, upsert the config entry on success; every `goto cleanup` path
unlinks the temp file before returning. -/
def fetch_bundle_uri (env : FetchEnv) (st : RepoState) : FetchOutcome :=
  match find_temp_filename env.mkstempOk with
  | Except.error _ => FetchOutcome.died st []
  | Except.ok _ =>
    let st1 : RepoState := { st with tempExists := false }
    let st2 : RepoState := { st1 with tempExists := env.copyCreatesFile }
    if env.copyResult ≠ 0 then
      FetchOutcome.returned env.copyResult { st2 with tempExists := false }
        [Step.transport]
    else if env.isBundle = false then
      FetchOutcome.returned 1 { st2 with tempExists := false }
        [Step.transport, Step.validate]
    else
      match unbundle_from_file env.refEnv st2.refs with
      | Except.error _ =>
        FetchOutcome.died { st2 with refs := st2.refs }
          [Step.transport, Step.validate, Step.ingest]
      | Except.ok (r, refs1, _ups) =>
        let st3 : RepoState := { st2 with refs := refs1 }
        if r ≠ 0 then
          FetchOutcome.returned r { st3 with tempExists := false }
            [Step.transport, Step.validate, Step.ingest]
        else
          let cfg1 := git_config_set_multivar_gently st3.config logExclKey
            refsBundleVal refsBundleVal
          let st4 : RepoState := { st3 with config := cfg1 }
          FetchOutcome.returned 0 { st4 with tempExists := false }
            [Step.transport, Step.validate, Step.ingest, Step.configUpsert]

/-- The number of config entries that are exactly
`log.excludedecoration = refs/bundle/`. -/
def countCfg (cfg : ConfigStore) : Nat :=
  (cfg.filter fun kv => kv.1 == logExclKey && kv.2 == refsBundleVal).length

/-! ### Concrete instances used by counterexamples and witnesses -/

/-- A run in which the bundle header declares `refs/heads/main -> 7`,
`unbundle` succeeds, and the ref store rejects every conditional write. -/
def envC1 : RefEnv :=
  { readHeaderOk := true,
    header := [{ refname := "refs/heads/main".toList, oid := 7 }],
    unbundleResult := 0,
    updateFails := fun _ => true }

/-- A run in which the bundle header declares `refs/heads/main -> 7` and
the external `unbundle` step fails (returns 1); ref writes succeed. -/
def envC2 : RefEnv :=
  { readHeaderOk := true,
    header := [{ refname := "refs/heads/main".toList, oid := 7 }],
    unbundleResult := 1,
    updateFails := fun _ => false }

/-- A helper run advertising only `fetch` (no `get`) whose process exits
with a nonzero status. -/
def hC4bad : HelperBehavior :=
  { start_ok := true, fdopen_in_ok := true, fdopen_out_ok := true,
    capLines := ["fetch".toList], exit_ok := false }

/-- A helper run advertising only `fetch` (no `get`) that exits cleanly. -/
def hC4ok : HelperBehavior :=
  { start_ok := true, fdopen_in_ok := true, fdopen_out_ok := true,
    capLines := ["fetch".toList], exit_ok := true }

/-- A fully successful ingest oracle: header declares
`refs/heads/main -> 42`, `unbundle` succeeds, all ref writes succeed. -/
def envC6 : RefEnv :=
  { readHeaderOk := true,
    header := [{ refname := "refs/heads/main".toList, oid := 42 }],
    unbundleResult := 0,
    updateFails := fun _ => false }

/-- A fully successful fetch oracle built on `envC6`. -/
def envFok : FetchEnv :=
  { mkstempOk := true, copyResult := 0, copyCreatesFile := true,
    isBundle := true, refEnv := envC6 }

/-- A fetch oracle whose `odb_mkstemp` fails. -/
def envFdie : FetchEnv :=
  { mkstempOk := false, copyResult := 0, copyCreatesFile := true,
    isBundle := true, refEnv := envC6 }

/-- An initial repository state: no temp file, no refs, empty config. -/
def st0 : RepoState := { tempExists := false, refs := [], config := [] }

/-- The final state of the successful fetch `fetch_bundle_uri envFok st0`. -/
def stFok : RepoState :=
  { tempExists := false,
    refs := [("refs/bundles/main".toList, 42)],
    config := [(logExclKey, refsBundleVal)] }

/-! ### String lemmas -/

theorem skipPfx_append (p s : Str) : skipPfx (p ++ s) p = some s := by
  induction p with
  | nil =>
    rw [List.nil_append]
    cases s <;> rfl
  | cons c cs ih => simp [skipPfx, ih]

theorem skipPfx_eq_some {p : Str} : ∀ {s r : Str}, skipPfx s p = some r ↔ s = p ++ r := by
  induction p with
  | nil =>
    intro s r
    constructor
    · intro h
      simpa [skipPfx] using h
    · intro h
      simp [skipPfx, h]
  | cons c cs ih =>
    intro s r
    cases s with
    | nil => simp [skipPfx]
    | cons d ds =>
      constructor
      · intro h
        by_cases hd : d = c
        · subst hd
          simp only [skipPfx, if_pos rfl] at h
          simp [ih.mp h]
        · simp [skipPfx, hd] at h
      · intro h
        cases h
        simp [skipPfx, ih]

theorem strchrSplit_append {c : Char} {a : Str} (h : c ∉ a) (b : Str) :
    strchrSplit c (a ++ c :: b) = some (a, b) := by
  induction a with
  | nil => simp [strchrSplit]
  | cons d ds ih =>
    have hd : d ≠ c := fun he => h (he ▸ List.mem_cons_self d ds)
    have hds : c ∉ ds := fun hm => h (List.mem_cons_of_mem d hm)
    simp [strchrSplit, hd, ih hds]

theorem strchrSplit_of_not_mem {c : Char} {s : Str} (h : c ∉ s) :
    strchrSplit c s = none := by
  induction s with
  | nil => rfl
  | cons d ds ih =>
    have hd : d ≠ c := fun he => h (he ▸ List.mem_cons_self d ds)
    have hds : c ∉ ds := fun h2 => h (List.mem_cons_of_mem d h2)
    simp [strchrSplit, hd, ih hds]

/-! ### Descriptor-store lemmas -/

theorem containsId_getOrCreate (bs : List RemoteBundleInfo) (i : Str) :
    containsId (getOrCreate bs i) i = true := by
  unfold getOrCreate
  by_cases h : containsId bs i = true
  · rw [if_pos h]
    exact h
  · rw [if_neg h]
    simp [containsId, List.any_append]

theorem getOrCreate_of_contains {bs : List RemoteBundleInfo} {i : Str}
    (h : containsId bs i = true) : getOrCreate bs i = bs := by
  simp [getOrCreate, h]

theorem containsId_setUri (bs : List RemoteBundleInfo) (i v j : Str) :
    containsId (setUri bs i v) j = containsId bs j := by
  unfold containsId setUri
  rw [List.any_map]
  congr 1
  funext b
  by_cases h : b.id = i <;> simp [h]

theorem lookupUri_setUri_self {bs : List RemoteBundleInfo} {i : Str}
    (h : containsId bs i = true) (v : Str) :
    lookupUri (setUri bs i v) i = some (some v) := by
  induction bs with
  | nil => simp [containsId] at h
  | cons b rest ih =>
    by_cases hb : b.id = i
    · unfold lookupUri setUri
      simp only [List.map_cons, if_pos hb]
      rw [List.find?_cons_of_pos _ (by simp [hb])]
      simp [hb]
    · have h2 : containsId rest i = true := by
        simp only [containsId, List.any_cons, Bool.or_eq_true, beq_iff_eq] at h
        rcases h with h | h
        · exact absurd h hb
        · simpa [containsId] using h
      have hrec := ih h2
      unfold lookupUri setUri at hrec ⊢
      simp only [List.map_cons, if_neg hb]
      rw [List.find?_cons_of_neg _ (by simp [hb])]
      exact hrec

theorem mem_getOrCreate {b : RemoteBundleInfo} {bs : List RemoteBundleInfo} {i : Str}
    (h : b ∈ getOrCreate bs i) : b ∈ bs ∨ b.id = i := by
  unfold getOrCreate at h
  by_cases hc : containsId bs i = true
  · rw [if_pos hc] at h
    exact Or.inl h
  · rw [if_neg hc] at h
    rcases List.mem_append.mp h with h | h
    · exact Or.inl h
    · have hb := List.mem_singleton.mp h
      subst hb
      exact Or.inr rfl

theorem mem_setUri {b : RemoteBundleInfo} {bs : List RemoteBundleInfo} {i v : Str}
    (h : b ∈ setUri bs i v) : ∃ b0 ∈ bs, b.id = b0.id := by
  rcases List.mem_map.mp h with ⟨b0, hb0, he⟩
  refine ⟨b0, hb0, ?_⟩
  by_cases hid : (b0.id == i) = true
  · rw [if_pos hid] at he
    rw [← he]
  · rw [if_neg hid] at he
    rw [← he]

/-! ### Parser branch lemmas -/

theorem upd_listVersion (v : Str) (l : BundleList) :
    bundle_list_update "bundle.list.version".toList v l
      = if atoi v ≠ 1 then (l, 1) else ({ l with version := atoi v }, 0) := rfl

theorem version_bundle_list_update (k v : Str) (l : BundleList) :
    (bundle_list_update k v l).1.version = 1
      ∨ (bundle_list_update k v l).1.version = l.version := by
  unfold bundle_list_update
  cases hsp : skipPfx k "bundle.".toList with
  | none => exact Or.inr rfl
  | some pkey =>
    dsimp only
    by_cases h1 : pkey = "list.version".toList
    · rw [if_pos h1]
      by_cases h2 : atoi v ≠ 1
      · rw [if_pos h2]
        exact Or.inr rfl
      · rw [if_neg h2]
        push_neg at h2
        exact Or.inl h2
    · rw [if_neg h1]
      by_cases h2 : pkey = "list.mode".toList
      · rw [if_pos h2]
        by_cases h3 : v = "all".toList
        · rw [if_pos h3]
          exact Or.inr rfl
        · rw [if_neg h3]
          by_cases h4 : v = "any".toList
          · rw [if_pos h4]
            exact Or.inr rfl
          · rw [if_neg h4]
            exact Or.inr rfl
      · rw [if_neg h2]
        cases hss : strchrSplit '.' pkey with
        | none => exact Or.inr rfl
        | some pr =>
          obtain ⟨i, field⟩ := pr
          dsimp only
          by_cases h3 : i = "list".toList
          · rw [if_pos h3]
            exact Or.inr rfl
          · rw [if_neg h3]
            by_cases h4 : field = "uri".toList
            · rw [if_pos h4]
              exact Or.inr rfl
            · rw [if_neg h4]
              exact Or.inr rfl

theorem applyAll_version (kvs : List (Str × Str)) (l : BundleList)
    (h : l.version = 1) : (applyAll kvs l).version = 1 := by
  induction kvs generalizing l with
  | nil => exact h
  | cons kv rest ih =>
    obtain ⟨k, v⟩ := kv
    rcases version_bundle_list_update k v l with h1 | h1
    · exact ih _ h1
    · exact ih _ (h1.trans h)

theorem ids_bundle_list_update (k v : Str) (l : BundleList)
    (h : ∀ b ∈ l.bundles, b.id ≠ "list".toList) :
    ∀ b ∈ (bundle_list_update k v l).1.bundles, b.id ≠ "list".toList := by
  unfold bundle_list_update
  cases hsp : skipPfx k "bundle.".toList with
  | none => exact h
  | some pkey =>
    dsimp only
    by_cases h1 : pkey = "list.version".toList
    · rw [if_pos h1]
      by_cases h2 : atoi v ≠ 1
      · rw [if_pos h2]; exact h
      · rw [if_neg h2]; exact h
    · rw [if_neg h1]
      by_cases h2 : pkey = "list.mode".toList
      · rw [if_pos h2]
        by_cases h3 : v = "all".toList
        · rw [if_pos h3]; exact h
        · rw [if_neg h3]
          by_cases h4 : v = "any".toList
          · rw [if_pos h4]; exact h
          · rw [if_neg h4]; exact h
      · rw [if_neg h2]
        cases hss : strchrSplit '.' pkey with
        | none => exact h
        | some pr =>
          obtain ⟨i, field⟩ := pr
          dsimp only
          by_cases h3 : i = "list".toList
          · rw [if_pos h3]; exact h
          · rw [if_neg h3]
            by_cases h4 : field = "uri".toList
            · rw [if_pos h4]
              intro b hb
              rcases mem_setUri hb with ⟨b0, hb0, hbid⟩
              rcases mem_getOrCreate hb0 with hm | hm
              · rw [hbid]
                exact h b0 hm
              · rw [hbid, hm]
                exact h3
            · rw [if_neg h4]
              intro b hb
              rcases mem_getOrCreate hb with hm | hm
              · exact h b hm
              · rw [hm]
                exact h3

theorem upd_list_field (fld v : Str) (l : BundleList)
    (h1 : fld ≠ "version".toList) (h2 : fld ≠ "mode".toList) :
    bundle_list_update ("bundle.list.".toList ++ fld) v l = (l, 1) := by
  have e1 : ("bundle.list.".toList : Str) = "bundle.".toList ++ "list.".toList := by
    decide
  rw [e1, List.append_assoc]
  unfold bundle_list_update
  rw [skipPfx_append]
  dsimp only
  have hv : ("list.".toList ++ fld : Str) ≠ "list.version".toList := by
    intro he
    have e2 : ("list.version".toList : Str) = "list.".toList ++ "version".toList := by
      decide
    rw [e2] at he
    exact h1 (List.append_cancel_left he)
  have hm : ("list.".toList ++ fld : Str) ≠ "list.mode".toList := by
    intro he
    have e3 : ("list.mode".toList : Str) = "list.".toList ++ "mode".toList := by
      decide
    rw [e3] at he
    exact h2 (List.append_cancel_left he)
  rw [if_neg hv, if_neg hm]
  have hs : strchrSplit '.' ("list.".toList ++ fld) = some ("list".toList, fld) := by
    have e4 : ("list.".toList : Str) ++ fld = "list".toList ++ '.' :: fld := by
      have e5 : ("list.".toList : Str) = "list".toList ++ ['.'] := by decide
      rw [e5, List.append_assoc]
      rfl
    rw [e4]
    exact strchrSplit_append (by decide) fld
  rw [hs]
  dsimp only
  rw [if_pos rfl]

theorem upd_nodot (rest v : Str) (l : BundleList) (h : '.' ∉ rest) :
    bundle_list_update ("bundle.".toList ++ rest) v l = (l, 1) := by
  unfold bundle_list_update
  rw [skipPfx_append]
  dsimp only
  have h1 : rest ≠ "list.version".toList := by
    intro he
    rw [he] at h
    exact h (by decide)
  have h2 : rest ≠ "list.mode".toList := by
    intro he
    rw [he] at h
    exact h (by decide)
  rw [if_neg h1, if_neg h2, strchrSplit_of_not_mem h]

theorem upd_uri (i v : Str) (l : BundleList)
    (hdot : '.' ∉ i) (hlist : i ≠ "list".toList) :
    bundle_list_update ("bundle.".toList ++ (i ++ '.' :: "uri".toList)) v l
      = ({ l with bundles := setUri (getOrCreate l.bundles i) i v }, 0) := by
  unfold bundle_list_update
  rw [skipPfx_append]
  dsimp only
  have hs : strchrSplit '.' (i ++ '.' :: "uri".toList) = some (i, "uri".toList) :=
    strchrSplit_append hdot _
  have hv : (i ++ '.' :: "uri".toList : Str) ≠ "list.version".toList := by
    intro he
    rw [he] at hs
    have e1 : strchrSplit '.' "list.version".toList
        = some ("list".toList, "version".toList) := by decide
    rw [e1] at hs
    have := (Prod.mk.injEq _ _ _ _).mp (Option.some.inj hs)
    exact absurd this.2.symm (by decide)
  have hm : (i ++ '.' :: "uri".toList : Str) ≠ "list.mode".toList := by
    intro he
    rw [he] at hs
    have e2 : strchrSplit '.' "list.mode".toList
        = some ("list".toList, "mode".toList) := by decide
    rw [e2] at hs
    have := (Prod.mk.injEq _ _ _ _).mp (Option.some.inj hs)
    exact absurd this.2.symm (by decide)
  rw [if_neg hv, if_neg hm, hs]
  dsimp only
  rw [if_neg hlist, if_pos rfl]

/-! ### Ref-translation lemmas -/

theorem attemptsOf_cons_some {e : BundleHeaderEntry} {branch : Str}
    (rest : List BundleHeaderEntry)
    (hsp : skipPfx e.refname "refs/heads/".toList = some branch) :
    attemptsOf (e :: rest)
      = ("refs/bundles/".toList ++ branch, e.oid) :: attemptsOf rest := by
  unfold attemptsOf headsDest
  rw [List.filterMap_cons, hsp]
  rfl

theorem attemptsOf_cons_none {e : BundleHeaderEntry}
    (rest : List BundleHeaderEntry)
    (hsp : skipPfx e.refname "refs/heads/".toList = none) :
    attemptsOf (e :: rest) = attemptsOf rest := by
  unfold attemptsOf headsDest
  rw [List.filterMap_cons, hsp]
  rfl

theorem refTranslate_ok (env : RefEnv) (entries : List BundleHeaderEntry)
    (s : RefStore) :
    refTranslate env entries s
      = Except.ok (transStore env entries s, attemptsOf entries) := by
  induction entries generalizing s with
  | nil => rfl
  | cons e rest ih =>
    unfold refTranslate transStore update_ref
    cases hsp : skipPfx e.refname "refs/heads/".toList with
    | none =>
      rw [attemptsOf_cons_none rest hsp]
      exact ih s
    | some branch =>
      dsimp only
      rw [attemptsOf_cons_some rest hsp]
      by_cases hf : env.updateFails ("refs/bundles/".toList ++ branch) = true
      · rw [if_pos hf]
        rw [if_pos hf]
        dsimp only
        rw [ih]
      · rw [if_neg hf]
        rw [if_neg hf]
        dsimp only
        rw [ih]

theorem unbundle_from_file_eq (env : RefEnv) (s : RefStore)
    (h : env.readHeaderOk = true) :
    unbundle_from_file env s
      = Except.ok (env.unbundleResult, transStore env env.header s,
          attemptsOf env.header) := by
  unfold unbundle_from_file
  rw [if_neg (show ¬env.readHeaderOk = false by simp [h]), refTranslate_ok]

theorem lookupRef_setRef_self (s : RefStore) (n : Str) (v : ObjId) :
    lookupRef (setRef s n v) n = some v := by
  unfold lookupRef setRef
  rw [List.find?_cons_of_pos _ (by simp)]
  rfl

theorem find?_filter_ne (s : RefStore) (n m : Str) (h : m ≠ n) :
    List.find? (fun p => p.1 == m) (s.filter fun p => !(p.1 == n))
      = List.find? (fun p => p.1 == m) s := by
  induction s with
  | nil => rfl
  | cons p rest ih =>
    by_cases hpn : p.1 = n
    · simp only [List.filter_cons, show (!(p.1 == n)) = false by simp [hpn]]
      rw [if_neg (by simp)]
      rw [List.find?_cons_of_neg _ (by
        simp [hpn]
        exact fun he => h he.symm)]
      exact ih
    · simp only [List.filter_cons, show (!(p.1 == n)) = true by simp [hpn]]
      rw [if_pos trivial]
      by_cases hpm : p.1 = m
      · rw [List.find?_cons_of_pos _ (by simp [hpm]),
          List.find?_cons_of_pos _ (by simp [hpm])]
      · rw [List.find?_cons_of_neg _ (by simp [hpm]),
          List.find?_cons_of_neg _ (by simp [hpm])]
        exact ih

theorem lookupRef_setRef_ne {n m : Str} (s : RefStore) (v : ObjId) (h : m ≠ n) :
    lookupRef (setRef s n v) m = lookupRef s m := by
  unfold lookupRef setRef
  rw [List.find?_cons_of_neg _ (by
    simp
    exact fun he => h he.symm)]
  rw [find?_filter_ne s n m h]

theorem transStore_lookup_notmem (env : RefEnv)
    (entries : List BundleHeaderEntry) (s : RefStore) (n : Str)
    (h : n ∉ (attemptsOf entries).map Prod.fst) :
    lookupRef (transStore env entries s) n = lookupRef s n := by
  induction entries generalizing s with
  | nil => rfl
  | cons e rest ih =>
    unfold transStore
    cases hsp : skipPfx e.refname "refs/heads/".toList with
    | none =>
      rw [attemptsOf_cons_none rest hsp] at h
      exact ih s h
    | some branch =>
      dsimp only
      rw [attemptsOf_cons_some rest hsp, List.map_cons] at h
      have hrest : n ∉ (attemptsOf rest).map Prod.fst :=
        fun hm => h (List.mem_cons_of_mem _ hm)
      have hne : n ≠ "refs/bundles/".toList ++ branch :=
        fun he => h (he ▸ List.mem_cons_self _ _)
      rw [ih _ hrest]
      by_cases hf : env.updateFails ("refs/bundles/".toList ++ branch) = true
      · rw [if_pos hf]
      · rw [if_neg hf]
        exact lookupRef_setRef_ne s e.oid hne

theorem transStore_lookup_mem (env : RefEnv)
    (entries : List BundleHeaderEntry) (s : RefStore)
    (hnf : ∀ r, env.updateFails r = false)
    (hnd : ((attemptsOf entries).map Prod.fst).Nodup)
    {d : Str} {o : ObjId} (hm : (d, o) ∈ attemptsOf entries) :
    lookupRef (transStore env entries s) d = some o := by
  induction entries generalizing s with
  | nil => simp [attemptsOf] at hm
  | cons e rest ih =>
    unfold transStore
    cases hsp : skipPfx e.refname "refs/heads/".toList with
    | none =>
      rw [attemptsOf_cons_none rest hsp] at hm hnd
      exact ih _ hnd hm
    | some branch =>
      dsimp only
      rw [hnf, if_neg (by simp)]
      rw [attemptsOf_cons_some rest hsp] at hm hnd
      rw [List.map_cons] at hnd
      rcases List.mem_cons.mp hm with he | hm'
      · have hd : d = "refs/bundles/".toList ++ branch := congrArg Prod.fst he
        have ho : o = e.oid := congrArg Prod.snd he
        have hnotin : ("refs/bundles/".toList ++ branch) ∉ (attemptsOf rest).map Prod.fst :=
          (List.nodup_cons.mp hnd).1
        rw [hd, ho]
        rw [transStore_lookup_notmem env rest _ _ hnotin]
        exact lookupRef_setRef_self _ _ _
      · exact ih _ (List.nodup_cons.mp hnd).2 hm'

/-! ### Transport and orchestrator lemmas -/

theorem getCommand_ne_capabilitiesCmd (uri file : Str) :
    getCommand uri file ≠ capabilitiesCmd := by
  intro h
  have h1 : getCommand uri file
      = 'g' :: ("et ".toList ++ uri ++ " ".toList ++ file ++ "\n\n".toList) := rfl
  have h2 : capabilitiesCmd = 'c' :: "apabilities\n".toList := rfl
  rw [h1, h2] at h
  injection h with h3 h4
  exact absurd h3 (by decide)

theorem countCfg_upsert (cfg : ConfigStore) :
    countCfg (git_config_set_multivar_gently cfg logExclKey refsBundleVal
      refsBundleVal) = 1 := by
  unfold countCfg git_config_set_multivar_gently
  rw [List.filter_append]
  have h1 : List.filter (fun kv => kv.1 == logExclKey && kv.2 == refsBundleVal)
      (List.filter (fun kv => !(kv.1 == logExclKey && kv.2 == refsBundleVal)) cfg)
        = [] := by
    induction cfg with
    | nil => rfl
    | cons kv rest ih =>
      by_cases hk : (kv.1 == logExclKey && kv.2 == refsBundleVal) = true
      · simp only [List.filter_cons, hk, Bool.not_true]
        rw [if_neg (by simp)]
        exact ih
      · simp only [Bool.not_eq_true] at hk
        simp only [List.filter_cons, hk, Bool.not_false]
        rw [if_pos trivial]
        rw [List.filter_cons, hk]
        rw [if_neg (by simp)]
        exact ih
  rw [h1]
  simp

theorem fetch_returned_facts {env : FetchEnv} {st : RepoState} {code : Int}
    {st1 : RepoState} {steps : List Step}
    (h : fetch_bundle_uri env st = FetchOutcome.returned code st1 steps) :
    st1.tempExists = false ∧ (code = 0 → countCfg st1.config = 1) := by
  unfold fetch_bundle_uri find_temp_filename at h
  by_cases hm : env.mkstempOk = false
  · rw [if_pos hm] at h
    exact absurd h (by simp)
  · rw [if_neg hm] at h
    dsimp only at h
    by_cases hc : env.copyResult ≠ 0
    · rw [if_pos hc] at h
      cases h
      exact ⟨rfl, fun h0 => absurd h0 hc⟩
    · rw [if_neg hc] at h
      by_cases hb : env.isBundle = false
      · rw [if_pos hb] at h
        cases h
        exact ⟨rfl, fun h0 => absurd h0 (by norm_num)⟩
      · rw [if_neg hb] at h
        rcases hu : unbundle_from_file env.refEnv st.refs with u | ⟨r, refs1, ups⟩
        · rw [hu] at h
          exact absurd h (by simp)
        · rw [hu] at h
          dsimp only at h
          by_cases hr : r ≠ 0
          · rw [if_pos hr] at h
            cases h
            exact ⟨rfl, fun h0 => absurd h0 hr⟩
          · rw [if_neg hr] at h
            cases h
            exact ⟨rfl, fun _ => countCfg_upsert _⟩

/-! ### Claim theorems -/

/-- C1 counterexample: a concrete run in which `read_bundle_header` and
`unbundle` succeed, the header declares `refs/heads/main -> 7`, and the
ref store rejects the conditional write to `refs/bundles/main`.
Translation reaches the failing ref update, yet `unbundle_from_file` does
not terminate the process: it returns normally (`Except.ok`) with return
code 0, leaving the ref unchanged. -/
theorem C1_counterexample :
    envC1.updateFails ("refs/bundles/main".toList) = true
    ∧ unbundle_from_file envC1 []
        = Except.ok (0, ([] : RefStore), [("refs/bundles/main".toList, 7)]) :=
  ⟨rfl, rfl⟩

/-- C1 (amended): a failing conditional ref update during translation
never terminates the process. Because the call site passes
`UPDATE_REFS_MSG_ON_ERR`, `unbundle_from_file` always returns normally,
and its return value (the header-read / `unbundle` result) is unaffected
by ref-update failures. -/
theorem C1_amended (env : RefEnv) (s : RefStore) :
    ∃ ret s1 ups, unbundle_from_file env s = Except.ok (ret, s1, ups)
      ∧ ret = (if env.readHeaderOk = true then env.unbundleResult else 1) := by
  by_cases h : env.readHeaderOk = true
  · exact ⟨_, _, _, unbundle_from_file_eq env s h, by rw [if_pos h]⟩
  · have hf : env.readHeaderOk = false := by
      cases henv : env.readHeaderOk
      · rfl
      · exact absurd henv h
    refine ⟨1, s, [], ?_, by rw [if_neg h]⟩
    unfold unbundle_from_file
    rw [hf, if_pos rfl]

/-- C2 counterexample: a concrete run in which the external `unbundle`
step fails (returns 1) on a header declaring `refs/heads/main -> 7`.
`unbundle_from_file` does return the failure, but ref translation is not
skipped: `refs/bundles/main` is written to 7 before the error is
returned. -/
theorem C2_counterexample :
    unbundle_from_file envC2 []
      = Except.ok (1, [("refs/bundles/main".toList, 7)],
          [("refs/bundles/main".toList, 7)])
    ∧ lookupRef [("refs/bundles/main".toList, 7)] ("refs/bundles/main".toList)
        = some 7 :=
  ⟨rfl, rfl⟩

/-- C2 (amended): when the external ingest/unpack step fails, ingest
still returns the (nonzero) failure code to the caller, but ref
translation is not skipped: the conditional updates for every
`refs/heads/` entry of the header (translated to `refs/bundles/`) are
still attempted before the error is returned. -/
theorem C2_amended (env : RefEnv) (s : RefStore)
    (h1 : env.readHeaderOk = true) (h2 : env.unbundleResult ≠ 0) :
    ∃ s1, unbundle_from_file env s
        = Except.ok (env.unbundleResult, s1, attemptsOf env.header)
      ∧ env.unbundleResult ≠ 0 :=
  ⟨transStore env env.header s, unbundle_from_file_eq env s h1, h2⟩

/-- C2 witness: the amended claim evaluated on the concrete failing run
`envC2`. -/
theorem C2_amended_witness :
    ∃ s1, unbundle_from_file envC2 []
        = Except.ok (envC2.unbundleResult, s1, attemptsOf envC2.header)
      ∧ envC2.unbundleResult ≠ 0 :=
  C2_amended envC2 [] rfl (by decide)

/-- C3: whenever `fetch_bundle_uri` returns (with any code — success,
transport failure, not-a-bundle, or ingest failure), the temp file no
longer exists in the final state: every exit path unlinks it before
returning. -/
theorem C3_temp_cleanup {env : FetchEnv} {st : RepoState} {code : Int}
    {st1 : RepoState} {steps : List Step}
    (h : fetch_bundle_uri env st = FetchOutcome.returned code st1 steps) :
    st1.tempExists = false :=
  (fetch_returned_facts h).1

/-- C3 witness: the cleanup fact on the concrete successful fetch
`fetch_bundle_uri envFok st0`. -/
theorem C3_temp_cleanup_witness : stFok.tempExists = false :=
  @C3_temp_cleanup envFok st0 0 stFok
    [Step.transport, Step.validate, Step.ingest, Step.configUpsert]
    (by decide)

/-- C4 counterexample: a helper run whose capability response is only
`fetch` (never `get`) but whose process exits with a nonzero status. No
`get` command is written, and the call fails — but it returns 1
(`TransportFailure` from `finish_command`), not `InsufficientCapabilities`
(= -1, the value of `error(...)`), so the claim's "fails with
InsufficientCapabilities" does not hold of every such run. -/
theorem C4_counterexample :
    foundGet hC4bad.capLines = false
    ∧ download_https_uri_to_file "https://x".toList "tmp".toList hC4bad
        = ([capabilitiesCmd], 1)
    ∧ (1 : Int) ≠ InsufficientCapabilities :=
  ⟨rfl, rfl, by decide⟩

/-- C4 (amended): if the capability response never contains `get`, the
transport writes no `get` command and the call fails (nonzero return);
the return value is `InsufficientCapabilities` when the helper spawned,
both streams opened, and the helper exited with status zero, and 1
(a generic transport failure) otherwise. -/
theorem C4_amended (uri file : Str) (h : HelperBehavior)
    (hg : foundGet h.capLines = false) :
    getCommand uri file ∉ (download_https_uri_to_file uri file h).1
    ∧ (download_https_uri_to_file uri file h).2 ≠ 0
    ∧ (h.start_ok = true → h.fdopen_in_ok = true → h.fdopen_out_ok = true →
        h.exit_ok = true →
        (download_https_uri_to_file uri file h).2 = InsufficientCapabilities) := by
  unfold download_https_uri_to_file
  by_cases hs : h.start_ok = false
  · rw [if_pos hs]
    refine ⟨by simp, by norm_num, fun h1 _ _ _ => ?_⟩
    rw [h1] at hs
    cases hs
  · rw [if_neg hs]
    by_cases hi : h.fdopen_in_ok = false
    · rw [if_pos hi]
      refine ⟨by simp, by norm_num, fun _ h2 _ _ => ?_⟩
      rw [h2] at hi
      cases hi
    · rw [if_neg hi]
      by_cases ho : h.fdopen_out_ok = false
      · rw [if_pos ho]
        refine ⟨by simp, by norm_num, fun _ _ h3 _ => ?_⟩
        rw [h3] at ho
        cases ho
      · rw [if_neg ho, if_neg (show ¬foundGet h.capLines = true by simp [hg])]
        refine ⟨?_, ?_, fun _ _ _ h4 => ?_⟩
        · intro hmem
          exact getCommand_ne_capabilitiesCmd uri file (List.mem_singleton.mp hmem)
        · by_cases he : h.exit_ok = true
          · rw [if_pos he]
            decide
          · rw [if_neg he]
            norm_num
        · rw [if_pos h4]

/-- C4 witness: the amended claim evaluated on the concrete clean run
`hC4ok` (capabilities `fetch` only, clean exit). -/
theorem C4_amended_witness :
    getCommand "https://x".toList "tmp".toList
        ∉ (download_https_uri_to_file "https://x".toList "tmp".toList hC4ok).1
    ∧ (download_https_uri_to_file "https://x".toList "tmp".toList hC4ok).2 ≠ 0
    ∧ (hC4ok.start_ok = true → hC4ok.fdopen_in_ok = true →
        hC4ok.fdopen_out_ok = true → hC4ok.exit_ok = true →
        (download_https_uri_to_file "https://x".toList "tmp".toList hC4ok).2
          = InsufficientCapabilities) :=
  C4_amended "https://x".toList "tmp".toList hC4ok (by decide)

/-- C5: a successful `fetch_bundle_uri` (return code 0) leaves exactly
one `log.excludedecoration = refs/bundle/` entry in the config store, no
matter how many such entries (zero or more, from earlier fetches) were
present before: the upsert removes every matching entry and writes one.
Hence any number of successful fetches leaves exactly one entry. -/
theorem C5_config_upsert {env : FetchEnv} {st : RepoState}
    {st1 : RepoState} {steps : List Step}
    (h : fetch_bundle_uri env st = FetchOutcome.returned 0 st1 steps) :
    countCfg st1.config = 1 :=
  (fetch_returned_facts h).2 rfl

/-- C5 witness: the upsert fact on the concrete successful fetch
`fetch_bundle_uri envFok st0`. -/
theorem C5_config_upsert_witness : countCfg stFok.config = 1 :=
  @C5_config_upsert envFok st0 stFok
    [Step.transport, Step.validate, Step.ingest, Step.configUpsert]
    (by decide)

/-- C6: whenever the bundle header is read, `unbundle_from_file` returns
normally, and (i) every header entry whose refname is
`refs/heads/<branch>` produces a conditional update of
`refs/bundles/<branch>` to its object id; (ii) every update issued comes
from such an entry with the prefix replaced (entries outside
`refs/heads/` are skipped and produce no update); and (iii) when the ref
store accepts all writes and the destinations are distinct, the final
store maps each destination to the declared object id. -/
theorem C6_ref_translation (env : RefEnv) (s : RefStore)
    (hrd : env.readHeaderOk = true) :
    ∃ ret s1 ups, unbundle_from_file env s = Except.ok (ret, s1, ups)
      ∧ (∀ e ∈ env.header, ∀ br : Str,
          e.refname = "refs/heads/".toList ++ br →
            ("refs/bundles/".toList ++ br, e.oid) ∈ ups)
      ∧ (∀ du ∈ ups, ∃ e ∈ env.header, ∃ br : Str,
          e.refname = "refs/heads/".toList ++ br
            ∧ du = ("refs/bundles/".toList ++ br, e.oid))
      ∧ ((∀ r, env.updateFails r = false) → (ups.map Prod.fst).Nodup →
          ∀ du ∈ ups, lookupRef s1 du.1 = some du.2) := by
  refine ⟨_, _, _, unbundle_from_file_eq env s hrd, ?_, ?_, ?_⟩
  · intro e he br hbr
    unfold attemptsOf
    apply List.mem_filterMap.mpr
    refine ⟨e, he, ?_⟩
    unfold headsDest
    rw [hbr, skipPfx_append]
    rfl
  · intro du hdu
    rcases List.mem_filterMap.mp hdu with ⟨e, he, hfe⟩
    unfold headsDest at hfe
    cases hsp : skipPfx e.refname "refs/heads/".toList with
    | none =>
      rw [hsp] at hfe
      cases hfe
    | some br =>
      rw [hsp] at hfe
      refine ⟨e, he, br, skipPfx_eq_some.mp hsp, ?_⟩
      exact (Option.some.inj hfe).symm
  · intro hnf hnd du hdu
    obtain ⟨d, o⟩ := du
    exact transStore_lookup_mem env env.header s hnf hnd hdu

/-- C6 witness: the translation facts evaluated on the concrete run
`envC6` (header `refs/heads/main -> 42`, all writes accepted). -/
theorem C6_ref_translation_witness :
    ∃ ret s1 ups, unbundle_from_file envC6 [] = Except.ok (ret, s1, ups)
      ∧ (∀ e ∈ envC6.header, ∀ br : Str,
          e.refname = "refs/heads/".toList ++ br →
            ("refs/bundles/".toList ++ br, e.oid) ∈ ups)
      ∧ (∀ du ∈ ups, ∃ e ∈ envC6.header, ∃ br : Str,
          e.refname = "refs/heads/".toList ++ br
            ∧ du = ("refs/bundles/".toList ++ br, e.oid))
      ∧ ((∀ r, envC6.updateFails r = false) → (ups.map Prod.fst).Nodup →
          ∀ du ∈ ups, lookupRef s1 du.1 = some du.2) :=
  C6_ref_translation envC6 [] rfl

/-- C7: (1) starting from the defaults, no sequence of parsed key-value
pairs ever leaves `version` different from 1; (2) applying
`bundle.list.version` with a value `atoi`-parsing to 1 sets
`version := 1` and returns 0 (Ok); (3) any other value returns 1
(Unrecognized) and leaves the whole list unchanged. -/
theorem C7_version_only_one :
    (∀ kvs : List (Str × Str), (applyAll kvs init_bundle_list).version = 1)
    ∧ (∀ (v : Str) (l : BundleList), atoi v = 1 →
        bundle_list_update "bundle.list.version".toList v l
          = ({ l with version := 1 }, 0))
    ∧ (∀ (v : Str) (l : BundleList), atoi v ≠ 1 →
        bundle_list_update "bundle.list.version".toList v l = (l, 1)) := by
  refine ⟨fun kvs => applyAll_version kvs init_bundle_list rfl, ?_, ?_⟩
  · intro v l h
    rw [upd_listVersion, if_neg (show ¬atoi v ≠ 1 by simp [h]), h]
  · intro v l h
    rw [upd_listVersion, if_pos h]

/-- C7 witness: the version facts evaluated at the concrete values
`"1"` and `"2"` on the default list. -/
theorem C7_version_only_one_witness :
    (applyAll [("bundle.list.version".toList, "2".toList)]
        init_bundle_list).version = 1
    ∧ bundle_list_update "bundle.list.version".toList "1".toList init_bundle_list
        = ({ init_bundle_list with version := 1 }, 0)
    ∧ bundle_list_update "bundle.list.version".toList "2".toList init_bundle_list
        = (init_bundle_list, 1) :=
  ⟨C7_version_only_one.1 _,
   C7_version_only_one.2.1 _ _ (by decide),
   C7_version_only_one.2.2 _ _ (by decide)⟩

/-- C8: for every dot-free id other than `list`, applying
`bundle.<id>.uri = v1` and then `bundle.<id>.uri = v2` returns 0 (Ok)
both times and leaves the descriptor for that id with uri `v2`
(last write wins). -/
theorem C8_uri_last_write_wins (i v1 v2 : Str) (l : BundleList)
    (hdot : '.' ∉ i) (hlist : i ≠ "list".toList) :
    (bundle_list_update ("bundle.".toList ++ (i ++ '.' :: "uri".toList)) v1 l).2 = 0
    ∧ (bundle_list_update ("bundle.".toList ++ (i ++ '.' :: "uri".toList)) v2
        (bundle_list_update ("bundle.".toList ++ (i ++ '.' :: "uri".toList)) v1 l).1).2
          = 0
    ∧ lookupUri
        (bundle_list_update ("bundle.".toList ++ (i ++ '.' :: "uri".toList)) v2
          (bundle_list_update ("bundle.".toList ++ (i ++ '.' :: "uri".toList)) v1 l).1).1.bundles
        i = some (some v2) := by
  have e1 := upd_uri i v1 l hdot hlist
  have e2 := upd_uri i v2
    ({ l with bundles := setUri (getOrCreate l.bundles i) i v1 }) hdot hlist
  rw [e1]
  refine ⟨rfl, ?_, ?_⟩
  · rw [e2]
  · rw [e2]
    have hc1 : containsId (setUri (getOrCreate l.bundles i) i v1) i = true := by
      rw [containsId_setUri]
      exact containsId_getOrCreate l.bundles i
    rw [show getOrCreate (setUri (getOrCreate l.bundles i) i v1) i
          = setUri (getOrCreate l.bundles i) i v1 from getOrCreate_of_contains hc1]
    exact lookupUri_setUri_self hc1 v2

/-- C8 witness: last-write-wins evaluated at the concrete id `b1` with
values `u1` then `u2` on the default list. -/
theorem C8_uri_last_write_wins_witness :
    (bundle_list_update ("bundle.".toList ++ ("b1".toList ++ '.' :: "uri".toList))
        "u1".toList init_bundle_list).2 = 0
    ∧ (bundle_list_update ("bundle.".toList ++ ("b1".toList ++ '.' :: "uri".toList))
        "u2".toList
        (bundle_list_update ("bundle.".toList ++ ("b1".toList ++ '.' :: "uri".toList))
          "u1".toList init_bundle_list).1).2 = 0
    ∧ lookupUri
        (bundle_list_update ("bundle.".toList ++ ("b1".toList ++ '.' :: "uri".toList))
          "u2".toList
          (bundle_list_update ("bundle.".toList ++ ("b1".toList ++ '.' :: "uri".toList))
            "u1".toList init_bundle_list).1).1.bundles
        "b1".toList = some (some "u2".toList) :=
  C8_uri_last_write_wins "b1".toList "u1".toList "u2".toList init_bundle_list
    (by decide) (by decide)

/-- C9: (1) `bundle.list.<field>` for any field other than `version` or
`mode` returns 1 (Unrecognized) and leaves the list unchanged; (2) a key
`bundle.<rest>` whose remainder contains no dot likewise returns 1 and
leaves the list unchanged; (3) no application of any key ever creates a
descriptor with the reserved id `list`. -/
theorem C9_reserved_list_id :
    (∀ (fld v : Str) (l : BundleList), fld ≠ "version".toList →
        fld ≠ "mode".toList →
        bundle_list_update ("bundle.list.".toList ++ fld) v l = (l, 1))
    ∧ (∀ (rest v : Str) (l : BundleList), '.' ∉ rest →
        bundle_list_update ("bundle.".toList ++ rest) v l = (l, 1))
    ∧ (∀ (k v : Str) (l : BundleList),
        (∀ b ∈ l.bundles, b.id ≠ "list".toList) →
        ∀ b ∈ (bundle_list_update k v l).1.bundles, b.id ≠ "list".toList) :=
  ⟨fun fld v l h1 h2 => upd_list_field fld v l h1 h2,
   fun rest v l h => upd_nodot rest v l h,
   fun k v l h => ids_bundle_list_update k v l h⟩

/-- C9 witness: the reserved-id facts evaluated at the concrete keys
`bundle.list.uri` (rejected) and `bundle.nodots` (no dot, rejected), and
the id of the descriptor created by `bundle.b2.uri` on the default list
(not `list`). -/
theorem C9_reserved_list_id_witness :
    bundle_list_update ("bundle.list.".toList ++ "uri".toList) "x".toList
        init_bundle_list = (init_bundle_list, 1)
    ∧ bundle_list_update ("bundle.".toList ++ "nodots".toList) "x".toList
        init_bundle_list = (init_bundle_list, 1)
    ∧ ({ id := "b2".toList, uri := some "x".toList } : RemoteBundleInfo).id
        ≠ "list".toList :=
  ⟨C9_reserved_list_id.1 "uri".toList "x".toList init_bundle_list
      (by decide) (by decide),
   C9_reserved_list_id.2.1 "nodots".toList "x".toList init_bundle_list (by decide),
   C9_reserved_list_id.2.2 "bundle.b2.uri".toList "x".toList init_bundle_list
      (by simp [init_bundle_list])
      { id := "b2".toList, uri := some "x".toList } (by decide)⟩

/-- C10: when `odb_mkstemp` fails, `find_temp_filename` dies and
`fetch_bundle_uri` terminates the process at once: no recoverable error
code is returned, no pipeline step (transport, validation, ingestion,
config upsert) runs, and the repository state is untouched. -/
theorem C10_mkstemp_fatal (env : FetchEnv) (st : RepoState)
    (h : env.mkstempOk = false) :
    fetch_bundle_uri env st = FetchOutcome.died st [] := by
  unfold fetch_bundle_uri find_temp_filename
  rw [if_pos h]

/-- C10 witness: the fatal-die fact evaluated on the concrete oracle
`envFdie`. -/
theorem C10_mkstemp_fatal_witness :
    fetch_bundle_uri envFdie st0 = FetchOutcome.died st0 [] :=
  C10_mkstemp_fatal envFdie st0 rfl

end BundleUri
